import Mathlib

/-!
Shallow embedding of the currency-converter core (`converter.py`) and proofs
about its specified behavior.

Modelling conventions:
* Python `float` values are modelled as exact rationals (`ℚ`); the concrete
  rate tables appearing in the claims (1.5, 25, 1.3, 300.0, ...) are exactly
  representable, so the modelled arithmetic agrees with the source on them.
* Python dictionaries are modelled as insertion-ordered association lists;
  `d[k] = v` updates the first binding in place when `k` is present and
  appends a fresh binding otherwise, exactly like a CPython 3.7+ `dict`.
* Fallible operations return `Except PyError _`; an `Except.error` models an
  exception escaping the function uncaught.
* File and network I/O are modelled by passing the would-be result of the
  effect as an explicit argument (`Option` archive for a possibly unreadable
  file, a `Snapshot` for the download, a `FileReadResult` for the symbol
  table file).
* `datetime.datetime.now()` is modelled by an explicit `now : CalDate`
  argument and the current year by `currentYear : ℤ`.
-/

/-- Python exceptions that the embedded code can raise or propagate. -/

inductive PyError where
  | valueError (msg : String)
  | keyError (key : String)
  | zeroDivisionError
  deriving DecidableEq

/-- Characters stripped by Python `int(str)` before parsing. -/
def isPySpace (c : Char) : Bool :=
  c = ' ' ∨ c = '\t' ∨ c = '\n' ∨ c = '\r' ∨ c = '\x0b' ∨ c = '\x0c'

/-- Decimal digit value of a character, when it is one. -/
def digitVal (c : Char) : Option Nat :=
  if '0' ≤ c ∧ c ≤ '9' then some (c.toNat - '0'.toNat) else none

/-- Value of a nonempty all-digit character list. -/
def parseDigits (cs : List Char) : Option Nat :=
  match cs with
  | [] => none
  | _ => cs.foldl (fun acc c => acc.bind fun n => (digitVal c).map fun d => n * 10 + d)
      (some 0)

/-- Embedding of Python `int(s)` for a string `s`: surrounding whitespace is
stripped, an optional single sign is allowed, and the remainder must be a
nonempty digit string.  (CPython additionally accepts underscore digit
separators and non-ASCII digits; neither can reach the validated ranges the
claims are about, and they are not modelled.) -/
def pyIntChars (cs : List Char) : Option Int :=
  let cs := ((cs.dropWhile isPySpace).reverse.dropWhile isPySpace).reverse
  match cs with
  | '+' :: rest => (parseDigits rest).map Int.ofNat
  | '-' :: rest => (parseDigits rest).map fun n => -(n : Int)
  | rest => (parseDigits rest).map Int.ofNat

/-- The list comprehension in the leap-year test of the `Converter.date`
setter: `[yr for yr in range(2000, year) if (yr % 4 == 0)]`. -/
def leapYearList (year : Int) : List Int :=
  ((List.range (year - 2000).toNat).map fun i : Nat => (2000 : Int) + i).filter
    fun yr => decide (yr % 4 = 0)

/-- Validation chain of the `Converter.date` setter on the parsed integer
fields, in source order; `false` means some check raised `DateError`. -/
def codeValid (day month year currentYear : Int) : Bool :=
  if ¬(2000 ≤ year ∧ year ≤ currentYear) then false
  else if ¬(1 ≤ month ∧ month ≤ 12) then false
  else if month = 2 ∧ 28 < day ∧ ¬(day = 29 ∧ year ∈ leapYearList year) then false
  else if ¬(1 ≤ day ∧ day ≤ 31) then false
  else if day = 31 ∧ ¬(month ∈ ([1, 3, 5, 7, 8, 10, 12] : List Int)) then false
  else true

/-- Embedding of the `Converter.date` property setter: converts `DD/MM/YYYY`
user input into `YYYY-MM-DD`, falling back to the string `"latest"` on `None`
input and on every validation failure (every raised `TypeError`, `ValueError`
or `DateError` is caught inside the setter).  The formatted date joins the
original string fields, as `"-".join(...)` does in the source. -/
def date_setter (date : Option String) (currentYear : Int) : String :=
  match date with
  | none => "latest"
  | some s =>
    if s.length = 10 then
      match s.data.splitOn '/' with
      | [d, m, y] =>
        match pyIntChars d, pyIntChars m, pyIntChars y with
        | some day, some month, some year =>
          if codeValid day month year currentYear then
            String.mk (y ++ '-' :: (m ++ '-' :: d))
          else "latest"
        | _, _, _ => "latest"
      | _ => "latest"
    else "latest"

/-- Day/month/year combinations the specification (§4.1) declares invalid,
written from the spec's words: day out of 1..31, day 31 in a short month, and
the spec's February rule (day > 28 fails unless day = 29, the year is
divisible by 4 and the year is strictly before the current year). -/
def specDayBad (day month year currentYear : Int) : Bool :=
  decide (day < 1) || decide (31 < day) ||
    (decide (day = 31) && !decide (month ∈ ([1, 3, 5, 7, 8, 10, 12] : List Int))) ||
    (decide (month = 2) && decide (28 < day) &&
      !(decide (day = 29) && decide (year % 4 = 0) && decide (year < currentYear)))

/-- Inputs the specification (§4.1, §8) declares malformed, written from the
spec's words: wrong length, wrong delimiter or field count, non-numeric
fields, year outside `[2000, current_year]`, month outside `[1, 12]`, or a
day outside the spec's calendar range. -/
def specMalformed (s : String) (currentYear : Int) : Bool :=
  decide (s.length ≠ 10) ||
    match s.data.splitOn '/' with
    | [d, m, y] =>
      match pyIntChars d, pyIntChars m, pyIntChars y with
      | some day, some month, some year =>
        decide (year < 2000) || decide (currentYear < year) ||
          decide (month < 1) || decide (12 < month) ||
          specDayBad day month year currentYear
      | _, _, _ => true
    | _ => true

/-- A concrete calendar date, as compared field-by-field in `get_rates`. -/
structure CalDate where
  year : Nat
  month : Nat
  day : Nat
  deriving DecidableEq

/-- Gregorian calendar date of a day count since the Unix epoch (the civil
calendar computation underlying `datetime.datetime.utcfromtimestamp`). -/
def civilFromDays (days : Nat) : CalDate :=
  let z := days + 719468
  let era := z / 146097
  let doe := z % 146097
  let yoe := (doe - doe / 1460 + doe / 36524 - doe / 146096) / 365
  let y := yoe + era * 400
  let doy := doe - (365 * yoe + yoe / 4 - yoe / 100)
  let mp := (5 * doy + 2) / 153
  let d := doy - (153 * mp + 2) / 5 + 1
  let m := if mp < 10 then mp + 3 else mp - 9
  { year := if m ≤ 2 then y + 1 else y, month := m, day := d }

/-- UTC calendar date of a Unix timestamp in seconds, as produced by
`datetime.datetime.utcfromtimestamp(float(key))` on the archive keys. -/
def dateOfTimestamp (ts : Nat) : CalDate :=
  civilFromDays (ts / 86400)

/-- A rate table: currency code to exchange rate (a Python dict). -/
abbrev Rates := List (String × ℚ)

/-- First-match association-list lookup; models both `d[k]` and `k in d` on
a Python dict. -/
def dlookup {κ α : Type} [DecidableEq κ] (k : κ) : List (κ × α) → Option α
  | [] => none
  | p :: rest => if p.1 = k then some p.2 else dlookup k rest

/-- Python dict assignment `d[k] = v`: updates the binding in place when the
key is present (keeping its position) and appends a fresh binding otherwise. -/
def dictInsert {κ α : Type} [DecidableEq κ] (d : List (κ × α)) (k : κ) (v : α) :
    List (κ × α) :=
  if (dlookup k d).isSome then d.map fun p => if p.1 = k then (k, v) else p
  else d ++ [(k, v)]

/-- The payload of a successful download: the `"timestamp"` and `"rates"`
fields of the provider's JSON response. -/
structure Snapshot where
  timestamp : Nat
  rates : Rates

/-- Embedding of `Converter.archive_rates`: the loaded archive (empty when
the file is missing or unparsable) gains the binding from the snapshot's
timestamp to its rates, via dict assignment. -/
def archive_rates (loaded : List (Nat × Rates)) (data : Snapshot) :
    List (Nat × Rates) :=
  dictInsert loaded data.timestamp data.rates

/-- The archive scan in `Converter.get_rates`: the first entry whose
timestamp falls on the requested calendar day (comparing year, month and day)
wins; no matching entry is a miss. -/
def cacheLookup : List (Nat × Rates) → CalDate → Option Rates
  | [], _ => none
  | (k, r) :: rest, d =>
    if dateOfTimestamp k = d then some r else cacheLookup rest d

/-- The converter's date attribute after the setter ran: the `"latest"`
sentinel or a concrete date. -/
inductive DateSpec where
  | latest
  | onDate (d : CalDate)

/-- Embedding of `Converter.get_rates`.  `archive` is the parsed archive
file (`none` when opening or JSON-parsing it fails), `now` is the calendar
date of `datetime.datetime.now()`, and `download` is what
`download_rates` would return.  The result pairs the returned rates with
whether a download (fetch) was performed.  Note the source computes a lookup
date for the `"latest"` sentinel too — `datetime.datetime.now()` — and runs
the same archive scan with it. -/
def get_rates (archive : Option (List (Nat × Rates))) (spec : DateSpec)
    (now : CalDate) (download : Snapshot) : Rates × Bool :=
  match archive with
  | none => (download.rates, true)
  | some data =>
    let d := match spec with | .latest => now | .onDate dd => dd
    match cacheLookup data d with
    | some r => (r, false)
    | none => (download.rates, true)

/-- Python `round(q)` to the nearest integer with ties to the even neighbour
(banker's rounding), on the idealized exact rational value. -/
def roundHalfEven (q : ℚ) : ℤ :=
  if q - ⌊q⌋ < 1 / 2 then ⌊q⌋
  else if (1 : ℚ) / 2 < q - ⌊q⌋ then ⌊q⌋ + 1
  else if 2 ∣ ⌊q⌋ then ⌊q⌋ else ⌊q⌋ + 1

/-- Python `round(q, 2)` on the idealized exact rational value. -/
def pyRound2 (q : ℚ) : ℚ :=
  (roundHalfEven (q * 100) : ℚ) / 100

/-- The result dictionary built by `Converter.convert_currency`: the
`"input"` sub-dictionary (amount and currency) and the `"output"` mapping. -/
structure ConvResult where
  amount : ℚ
  currency : String
  output : List (String × ℚ)
  deriving DecidableEq

/-- The conversion loop of `Converter.convert_currency`: each target code is
looked up in the rate table; a `KeyError` there is caught and the code
skipped; otherwise `round(amount / original_rate * target_rate, 2)` is stored
under the code.  The division raises `ZeroDivisionError` (caught by no
handler) when the original rate is zero. -/
def convertLoop (rates : Rates) (amount origRate : ℚ) :
    List String → List (String × ℚ) → Except PyError (List (String × ℚ))
  | [], out => .ok out
  | c :: rest, out =>
    match dlookup c rates with
    | none => convertLoop rates amount origRate rest out
    | some r =>
      if origRate = 0 then .error .zeroDivisionError
      else
        convertLoop rates amount origRate rest
          (dictInsert out c (pyRound2 (amount / origRate * r)))

/-- Embedding of `Converter.convert_currency`.  A negative amount raises
`ValueError`; the unguarded lookup of the original currency raises `KeyError`
when it is absent.  (The source also raises `ValueError` for a non-`float`
amount; every amount of the model is a `float`, represented exactly.) -/
def convert_currency (rates : Rates) (amount : ℚ) (orig : String)
    (targets : List String) : Except PyError ConvResult :=
  if amount < 0 then .error (.valueError "Value cannot be negative.")
  else
    match dlookup orig rates with
    | none => .error (.keyError orig)
    | some origRate =>
      match convertLoop rates amount origRate targets [] with
      | .error e => .error e
      | .ok out => .ok { amount := amount, currency := orig, output := out }

/-- The currency-symbol table parsed from the configured JSON file. -/
abbrev SymbolTable := List (String × List String)

/-- Embedding of the lookup done by `Converter.translate_symbol` once the
table file has been read: `data[currency]` resolves to the stored code list,
and the `KeyError` for a missing key (including a `None` currency, never a
key of a JSON object) is caught and turned into the empty list. -/
def translate_symbol (tbl : SymbolTable) (currency : Option String) : List String :=
  match currency with
  | none => []
  | some s => (dlookup s tbl).getD []

/-- Python `str(...)` on an optional string, as used in the error message
formatting (`format(None)` prints `None`). -/
def pyStrOpt : Option String → String
  | none => "None"
  | some s => s

/-- Python truthiness of an optional string: `None` and `""` are falsy. -/
def truthy : Option String → Bool
  | none => false
  | some s => !s.isEmpty

/-- Embedding of `Converter.get_target_currencies`: a truthy original
currency of length other than 3 and an original currency absent from the
rate table (including `None`) raise `ValueError`; otherwise a non-empty
symbol resolution wins, then a verbatim known code, and otherwise all known
codes are used. -/
def get_target_currencies (rates : Rates) (tbl : SymbolTable)
    (orig target : Option String) : Except PyError (List String) :=
  if truthy orig = true ∧ (orig.getD "").length ≠ 3 then
    .error (.valueError "Currency symbol as input parameter not supported")
  else if (match orig with | none => true | some s => (dlookup s rates).isNone) = true then
    .error (.valueError ("Currency " ++ pyStrOpt orig ++ " invalid or not supported"))
  else
    let tcs := translate_symbol tbl target
    if tcs ≠ [] then .ok tcs
    else
      match target with
      | some t => if (dlookup t rates).isSome then .ok [t] else .ok (rates.map Prod.fst)
      | none => .ok (rates.map Prod.fst)

/-- Outcome of opening and JSON-parsing the currency-symbol table file. -/
inductive FileReadResult where
  | ioError
  | malformedJson
  | content (tbl : SymbolTable)

/-- Observable outcome of `Converter.translate_symbol`: the reported
report-and-exit path, an exception escaping to the caller unreported, or a
resolved code list. -/
inductive SymbolOutcome where
  | fatalAbort
  | uncaughtError (e : PyError)
  | resolved (codes : List String)
  deriving DecidableEq

/-- Embedding of `Converter.translate_symbol` with the table-file read made
explicit.  The `try` block catches exactly `IOError` (reported, then
`exit(1)`) and `KeyError` (resolved to the empty list); `json.JSONDecodeError`
is a subclass of `ValueError`, which neither `except` clause names, so a file
that opens but holds malformed JSON escapes uncaught. -/
def translate_symbol_full (fileRead : FileReadResult) (currency : Option String) :
    SymbolOutcome :=
  match fileRead with
  | .ioError => .fatalAbort
  | .malformedJson => .uncaughtError (.valueError "JSONDecodeError")
  | .content tbl => .resolved (translate_symbol tbl currency)

/-- The rate table used throughout the repository's tests:
USD 1.5, CZK 25, CAD 1.3. -/
def exampleRates : Rates := [("USD", 3 / 2), ("CZK", 25), ("CAD", 13 / 10)]

lemma mem_leapYearList_lt {x year : Int} (h : x ∈ leapYearList year) : x < year := by
  simp only [leapYearList, List.mem_filter, List.mem_map, List.mem_range] at h
  obtain ⟨⟨i, hi, rfl⟩, -⟩ := h
  omega

lemma self_not_mem_leapYearList (year : Int) : year ∉ leapYearList year := by
  intro h
  exact absurd (mem_leapYearList_lt h) (lt_irrefl year)

/-- The validation chain succeeds exactly when every individual check passes;
the February clause collapses to rejecting every day above 28 because the
year is never a member of `leapYearList year`. -/
lemma codeValid_eq_true_iff (day month year cy : Int) :
    codeValid day month year cy = true ↔
      (2000 ≤ year ∧ year ≤ cy) ∧ (1 ≤ month ∧ month ≤ 12) ∧
        ¬(month = 2 ∧ 28 < day) ∧ (1 ≤ day ∧ day ≤ 31) ∧
        ¬(day = 31 ∧ month ∉ ([1, 3, 5, 7, 8, 10, 12] : List Int)) := by
  unfold codeValid
  have hleap := self_not_mem_leapYearList year
  by_cases h1 : 2000 ≤ year ∧ year ≤ cy <;>
    by_cases h2 : 1 ≤ month ∧ month ≤ 12 <;>
      by_cases h3 : month = 2 ∧ 28 < day <;>
        by_cases h4 : 1 ≤ day ∧ day ≤ 31 <;>
          by_cases h5 : day = 31 ∧ month ∉ ([1, 3, 5, 7, 8, 10, 12] : List Int) <;>
            simp_all <;> tauto

lemma dlookup_append {κ α : Type} [DecidableEq κ]
    (d e : List (κ × α)) (k : κ) :
    dlookup k (d ++ e) =
      match dlookup k d with
      | some v => some v
      | none => dlookup k e := by
  induction d with
  | nil => simp [dlookup]
  | cons p rest ih =>
    rw [List.cons_append, dlookup, dlookup]
    by_cases hp : p.1 = k
    · simp [hp]
    · simp only [if_neg hp]
      exact ih

lemma dlookup_map_overwrite_self {κ α : Type} [DecidableEq κ]
    (d : List (κ × α)) (k : κ) (v : α) (h : (dlookup k d).isSome) :
    dlookup k (d.map fun p => if p.1 = k then (k, v) else p) = some v := by
  induction d with
  | nil => simp [dlookup] at h
  | cons p rest ih =>
    by_cases hp : p.1 = k
    · simp [dlookup, hp]
    · rw [dlookup, if_neg hp] at h
      simp only [List.map_cons, if_neg hp, dlookup]
      exact ih h

lemma dlookup_map_overwrite_ne {κ α : Type} [DecidableEq κ]
    (d : List (κ × α)) (k k' : κ) (v : α) (hne : k' ≠ k) :
    dlookup k' (d.map fun p => if p.1 = k then (k, v) else p) = dlookup k' d := by
  induction d with
  | nil => simp [dlookup]
  | cons p rest ih =>
    by_cases hp : p.1 = k
    · simp only [List.map_cons, if_pos hp, dlookup]
      rw [if_neg fun h => hne h.symm, if_neg (by rw [hp]; exact fun h => hne h.symm)]
      exact ih
    · simp only [List.map_cons, if_neg hp, dlookup]
      by_cases hq : p.1 = k' <;> simp only [if_pos, if_neg, hq, ih, if_true, if_false]

lemma dlookup_dictInsert_self {κ α : Type} [DecidableEq κ]
    (d : List (κ × α)) (k : κ) (v : α) :
    dlookup k (dictInsert d k v) = some v := by
  unfold dictInsert
  split
  · exact dlookup_map_overwrite_self d k v (by assumption)
  · rename_i h
    rw [dlookup_append]
    have : dlookup k d = none := by
      cases hd : dlookup k d with
      | none => rfl
      | some w => rw [hd] at h; simp at h
    rw [this]
    simp [dlookup]

lemma dlookup_dictInsert_ne {κ α : Type} [DecidableEq κ]
    (d : List (κ × α)) (k k' : κ) (v : α) (hne : k' ≠ k) :
    dlookup k' (dictInsert d k v) = dlookup k' d := by
  unfold dictInsert
  split
  · exact dlookup_map_overwrite_ne d k k' v hne
  · rw [dlookup_append]
    cases hd : dlookup k' d with
    | none =>
      show dlookup k' [(k, v)] = none
      have hkk : ¬((k, v).1 = k') := fun hcontr => hne hcontr.symm
      rw [dlookup, if_neg hkk]
      rfl
    | some w => rfl

lemma dlookup_mem {κ α : Type} [DecidableEq κ]
    {d : List (κ × α)} {k : κ} {v : α} (h : dlookup k d = some v) : (k, v) ∈ d := by
  induction d with
  | nil => simp [dlookup] at h
  | cons p rest ih =>
    rw [dlookup] at h
    by_cases hp : p.1 = k
    · rw [if_pos hp] at h
      have hv : p.2 = v := by injection h
      have hpkv : p = (k, v) := by
        obtain ⟨p1, p2⟩ := p
        exact Prod.ext hp hv
      rw [hpkv]
      exact List.mem_cons_self _ _
    · rw [if_neg hp] at h
      exact List.mem_cons_of_mem _ (ih h)

lemma cacheLookup_append_miss (l l2 : List (Nat × Rates)) (d : CalDate)
    (h : ∀ p ∈ l, dateOfTimestamp p.1 ≠ d) :
    cacheLookup (l ++ l2) d = cacheLookup l2 d := by
  induction l with
  | nil => rfl
  | cons p rest ih =>
    obtain ⟨k, r⟩ := p
    rw [List.cons_append, cacheLookup,
      if_neg (h (k, r) (List.mem_cons_self _ _))]
    exact ih fun q hq => h q (List.mem_cons_of_mem _ hq)

lemma filter_map_overwrite {κ α : Type} [DecidableEq κ]
    (d : List (κ × α)) (k : κ) (v : α) :
    (d.map fun p => if p.1 = k then (k, v) else p).filter (fun p => !decide (p.1 = k))
      = d.filter fun p => !decide (p.1 = k) := by
  induction d with
  | nil => rfl
  | cons p rest ih =>
    rw [List.map_cons, List.filter_cons, List.filter_cons]
    by_cases hp : p.1 = k
    · simp [hp, ih]
    · simp [hp, ih]

lemma dictInsert_filter_ne {κ α : Type} [DecidableEq κ]
    (d : List (κ × α)) (k : κ) (v : α) :
    (dictInsert d k v).filter (fun p => decide (p.1 ≠ k))
      = d.filter fun p => decide (p.1 ≠ k) := by
  unfold dictInsert
  simp only [ne_eq, decide_not]
  split
  · exact filter_map_overwrite d k v
  · rw [List.filter_append]
    simp

lemma convertLoop_ok_of_ne (rates : Rates) (amount origRate : ℚ)
    (h : origRate ≠ 0) (ts : List String) :
    ∀ out : List (String × ℚ), ∃ o, convertLoop rates amount origRate ts out = .ok o := by
  induction ts with
  | nil => exact fun out => ⟨out, rfl⟩
  | cons c rest ih =>
    intro out
    rw [convertLoop]
    cases hc : dlookup c rates with
    | none => exact ih out
    | some r =>
      simp only [hc, if_neg h]
      exact ih _

lemma convertLoop_lookup_skip (rates : Rates) (amount origRate : ℚ)
    (ts : List String) :
    ∀ (out : List (String × ℚ)) (c : String) (o : List (String × ℚ)),
      (c ∉ ts ∨ dlookup c rates = none) →
      convertLoop rates amount origRate ts out = .ok o →
      dlookup c o = dlookup c out := by
  induction ts with
  | nil =>
    intro out c o _ h
    obtain rfl : out = o := by
      rw [convertLoop] at h
      injection h
    rfl
  | cons c' rest ih =>
    intro out c o hc h
    rw [convertLoop] at h
    have hcrest : c ∉ rest ∨ dlookup c rates = none := by
      rcases hc with hc | hc
      · exact Or.inl fun hm => hc (List.mem_cons_of_mem _ hm)
      · exact Or.inr hc
    cases hcc : dlookup c' rates with
    | none =>
      rw [hcc] at h
      exact ih out c o hcrest h
    | some r =>
      simp only [hcc] at h
      by_cases h0 : origRate = 0
      · rw [if_pos h0] at h
        exact Except.noConfusion h
      · rw [if_neg h0] at h
        have hne : c ≠ c' := by
          rcases hc with hc | hc
          · exact fun he => hc (he ▸ List.mem_cons_self _ _)
          · intro he
            rw [he, hcc] at hc
            cases hc
        rw [ih _ c o hcrest h, dlookup_dictInsert_ne _ _ _ _ hne]

lemma convertLoop_lookup_mem (rates : Rates) (amount origRate : ℚ)
    (h0 : origRate ≠ 0) (ts : List String) :
    ∀ (out : List (String × ℚ)) (c : String) (r : ℚ) (o : List (String × ℚ)),
      c ∈ ts → dlookup c rates = some r →
      convertLoop rates amount origRate ts out = .ok o →
      dlookup c o = some (pyRound2 (amount / origRate * r)) := by
  induction ts with
  | nil => intro _ c _ _ hc; cases hc
  | cons c' rest ih =>
    intro out c r o hc hr h
    rw [convertLoop] at h
    by_cases hmem : c ∈ rest
    · cases hcc : dlookup c' rates with
      | none =>
        rw [hcc] at h
        exact ih out c r o hmem hr h
      | some r' =>
        simp only [hcc, if_neg h0] at h
        exact ih _ c r o hmem hr h
    · have hcc' : c = c' := by
        rcases List.mem_cons.mp hc with h1 | h1
        · exact h1
        · exact absurd h1 hmem
      subst hcc'
      simp only [hr, if_neg h0] at h
      rw [convertLoop_lookup_skip rates amount origRate rest _ c o (Or.inl hmem) h,
        dlookup_dictInsert_self]

lemma convertLoop_zero_ok_iff (rates : Rates) (amount : ℚ) (ts : List String) :
    ∀ out : List (String × ℚ),
      (∃ o, convertLoop rates amount 0 ts out = .ok o) ↔
        ∀ c ∈ ts, dlookup c rates = none := by
  induction ts with
  | nil => intro out; simp [convertLoop]
  | cons c rest ih =>
    intro out
    rw [convertLoop]
    cases hc : dlookup c rates with
    | none => simp [hc, ih out]
    | some r => simp [hc]

/-- C1 counterexample: the input `"29/02/2004"` with current year 2026
satisfies every premise of the claim (2000 ≤ 2004 ≤ 2026, 2004 divisible
by 4, 2004 strictly below the current year), yet date normalization falls
back to `"latest"` instead of accepting 29 February 2004: the source's
membership test `year in [yr for yr in range(2000, year) if (yr % 4 == 0)]`
can never hold, because `year` itself is outside `range(2000, year)`. -/
theorem feb29_counterexample :
    ((2000 : Int) ≤ 2004 ∧ (2004 : Int) ≤ 2026 ∧ (2004 : Int) % 4 = 0 ∧
      (2004 : Int) < 2026) ∧
    date_setter (some "29/02/2004") 2026 = "latest" :=
  ⟨by decide, by decide⟩

/-- C1 amended: for every input string that splits into day field 29 and
month field 2 — in particular every `"29/02/YYYY"` — date normalization
fails validation and falls back to `"latest"`, for every year and every
current year: the leap-year membership test of the source never holds. -/
theorem feb29_always_latest (s : String) (cy : Int) (d m y : List Char)
    (hsplit : s.data.splitOn '/' = [d, m, y])
    (hd : pyIntChars d = some 29) (hm : pyIntChars m = some 2) :
    date_setter (some s) cy = "latest" := by
  simp only [date_setter]
  by_cases hlen : s.length = 10
  · rw [if_pos hlen, hsplit]
    cases hy : pyIntChars y with
    | none => simp [hd, hm, hy]
    | some year =>
      have hcv : codeValid 29 2 year cy = false := by
        rw [← Bool.not_eq_true, codeValid_eq_true_iff]
        intro hall
        exact hall.2.2.1 ⟨rfl, by norm_num⟩
      simp [hd, hm, hy, hcv]
  · rw [if_neg hlen]

/-- Witness for the amended C1 theorem at the concrete input
`"29/02/2004"` with current year 2026. -/
theorem feb29_always_latest_witness :
    date_setter (some "29/02/2004") 2026 = "latest" :=
  feb29_always_latest "29/02/2004" 2026 ['2', '9'] ['0', '2'] ['2', '0', '0', '4']
    (by decide) (by decide) (by decide)

/-- C6: date normalization is a total function that never propagates an
error: `None` yields the `"latest"` sentinel directly, and every input the
specification classifies as malformed — wrong length, wrong delimiter or
field count, non-numeric fields, year outside `[2000, current_year]`, month
outside `[1, 12]`, or a day outside the calendar range — falls back to the
`"latest"` sentinel, so the overall operation proceeds with latest rates. -/
theorem normalize_total_fallback (cy : Int) :
    date_setter none cy = "latest" ∧
    ∀ s : String, specMalformed s cy = true → date_setter (some s) cy = "latest" := by
  refine ⟨rfl, fun s hmal => ?_⟩
  simp only [date_setter]
  by_cases hlen : s.length = 10
  case neg => rw [if_neg hlen]
  case pos =>
  rw [if_pos hlen]
  simp only [specMalformed, hlen] at hmal
  norm_num at hmal
  rcases hsp : s.data.splitOn '/' with _ | ⟨d, _ | ⟨m, _ | ⟨y, _ | ⟨w, tl⟩⟩⟩⟩ <;>
    rw [hsp] at hmal <;> try rfl
  cases hd : pyIntChars d with
  | none => simp [hd]
  | some day =>
  cases hm : pyIntChars m with
  | none => simp [hd, hm]
  | some month =>
  cases hy : pyIntChars y with
  | none => simp [hd, hm, hy]
  | some year =>
  simp only [hd, hm, hy] at hmal
  cases hcv : codeValid day month year cy
  case false => simp [hd, hm, hy, hcv]
  case true =>
  exfalso
  obtain ⟨⟨hy1, hy2⟩, ⟨hm1, hm2⟩, hfeb, ⟨hd1, hd2⟩, h31⟩ :=
    (codeValid_eq_true_iff day month year cy).mp hcv
  simp only [specDayBad, Bool.or_eq_true, Bool.and_eq_true, Bool.not_eq_true',
    decide_eq_true_eq, decide_eq_false_iff_not] at hmal
  rcases hmal with (((h | h) | h) | h) | ((h | h) | h) | h
  · omega
  · omega
  · omega
  · omega
  · omega
  · omega
  · exact h31 h
  · exact hfeb h.1

/-- Witness for the C6 theorem: `"31/04/2016"` (31 April) is malformed per
the specification, and normalization maps it to `"latest"`. -/
theorem normalize_total_fallback_witness :
    specMalformed "31/04/2016" 2026 = true ∧
      date_setter (some "31/04/2016") 2026 = "latest" :=
  ⟨by decide, (normalize_total_fallback 2026).2 "31/04/2016" (by decide)⟩

set_option maxRecDepth 100000 in
/-- C2 counterexample: with the `Latest` sentinel, an archive holding a
snapshot whose timestamp (1791763200, i.e. 2026-10-12 UTC) falls on the
current calendar day is served from the archive — the scan is a Hit and no
fetch happens — contradicting the claim that the lookup is always a Miss
with a fresh fetch.  The `false` component of the result records that
`download_rates` was not called. -/
theorem latest_cache_hit_counterexample :
    dateOfTimestamp 1791763200 = { year := 2026, month := 10, day := 12 } ∧
    get_rates (some [(1791763200, [("USD", 1)])]) DateSpec.latest
        { year := 2026, month := 10, day := 12 }
        { timestamp := 0, rates := [("EUR", 2)] }
      = ([("USD", 1)], false) :=
  ⟨by decide, by decide⟩

/-- C2 amended: for the `Latest` sentinel, rate acquisition runs the archive
scan against the current calendar day exactly as it would for that concrete
date: an archived snapshot whose timestamp falls on today's day is served
with no fetch, and a fetch happens only when no archived entry falls on
today (or the archive file is unreadable). -/
theorem latest_uses_today_lookup (data : List (Nat × Rates)) (now : CalDate)
    (download : Snapshot) :
    (∀ r, cacheLookup data now = some r →
      get_rates (some data) DateSpec.latest now download = (r, false)) ∧
    (cacheLookup data now = none →
      get_rates (some data) DateSpec.latest now download = (download.rates, true)) ∧
    get_rates (some data) DateSpec.latest now download
      = get_rates (some data) (DateSpec.onDate now) now download := by
  refine ⟨fun r hr => ?_, fun hn => ?_, rfl⟩
  · simp [get_rates, hr]
  · simp [get_rates, hn]

/-- Witness for the amended C2 theorem: the same-day snapshot of the
counterexample archive is served without a fetch. -/
theorem latest_uses_today_lookup_witness :
    get_rates (some [(1791763200, [("USD", 1)])]) DateSpec.latest
        { year := 2026, month := 10, day := 12 }
        { timestamp := 0, rates := [("EUR", 2)] }
      = ([("USD", 1)], false) :=
  (latest_uses_today_lookup _ _ _).1 [("USD", 1)] (by decide)

/-- C5: storing a snapshot in the archive and then looking up the UTC
calendar date of its timestamp returns exactly the snapshot's rates,
provided no entry already in the archive falls on that calendar day (the
store then appends, and the first-match scan reaches the new entry). -/
theorem archive_roundtrip (archive : List (Nat × Rates)) (snap : Snapshot)
    (hfresh : ∀ p ∈ archive, dateOfTimestamp p.1 ≠ dateOfTimestamp snap.timestamp) :
    cacheLookup (archive_rates archive snap) (dateOfTimestamp snap.timestamp)
      = some snap.rates := by
  have hnone : dlookup snap.timestamp archive = none := by
    cases hd : dlookup snap.timestamp archive with
    | none => rfl
    | some r =>
      have h5 := hfresh (snap.timestamp, r) (dlookup_mem hd)
      simp only [ne_eq] at h5
      exact absurd trivial h5
  unfold archive_rates dictInsert
  rw [hnone]
  simp only [Option.isSome_none, Bool.false_eq_true, if_false]
  rw [cacheLookup_append_miss archive _ _ hfresh]
  simp [cacheLookup]

/-- Witness for the C5 theorem: storing a snapshot with timestamp 0 in the
empty archive and looking up 1970-01-01 returns its rates. -/
theorem archive_roundtrip_witness :
    cacheLookup (archive_rates [] { timestamp := 0, rates := [("USD", 1)] })
      (dateOfTimestamp 0) = some [("USD", 1)] :=
  archive_roundtrip [] { timestamp := 0, rates := [("USD", 1)] } (by simp)

/-- C8: storing a snapshot maps its literal timestamp key to its rates and
leaves every binding under any other key exactly as it was — stated both at
the lookup level and as preservation (order included) of all entries whose
key differs from the stored timestamp. -/
theorem archive_store_frame (archive : List (Nat × Rates)) (snap : Snapshot) :
    dlookup snap.timestamp (archive_rates archive snap) = some snap.rates ∧
    (∀ k, k ≠ snap.timestamp →
      dlookup k (archive_rates archive snap) = dlookup k archive) ∧
    (archive_rates archive snap).filter (fun p => decide (p.1 ≠ snap.timestamp))
      = archive.filter fun p => decide (p.1 ≠ snap.timestamp) :=
  ⟨dlookup_dictInsert_self archive snap.timestamp snap.rates,
    fun k hk => dlookup_dictInsert_ne archive snap.timestamp k snap.rates hk,
    dictInsert_filter_ne archive snap.timestamp snap.rates⟩

/-- Witness for the C8 theorem: storing timestamp 7 over an archive holding
timestamp 5 keeps the old binding and adds the new one. -/
theorem archive_store_frame_witness :
    dlookup 7 (archive_rates [(5, [("EUR", 2)])] { timestamp := 7, rates := [("USD", 1)] })
      = some [("USD", 1)] ∧
    dlookup 5 (archive_rates [(5, [("EUR", 2)])] { timestamp := 7, rates := [("USD", 1)] })
      = some [("EUR", 2)] := by
  constructor
  · exact (archive_store_frame [(5, [("EUR", 2)])]
      { timestamp := 7, rates := [("USD", 1)] }).1
  · rw [(archive_store_frame [(5, [("EUR", 2)])]
      { timestamp := 7, rates := [("USD", 1)] }).2.1 5 (by decide)]
    simp [dlookup]

/-- C4: target resolution precedence for a valid source (3 characters and
present in the rate table): a non-empty symbol resolution wins outright;
otherwise a target present verbatim in the rate table yields the singleton
list; otherwise (unknown target, or no target at all) every known currency
code is used. -/
theorem target_resolution_precedence (rates : Rates) (tbl : SymbolTable)
    (s : String) (r : ℚ) (target : Option String)
    (hlen : s.length = 3) (hknown : dlookup s rates = some r) :
    (translate_symbol tbl target ≠ [] →
      get_target_currencies rates tbl (some s) target
        = .ok (translate_symbol tbl target)) ∧
    (∀ t, target = some t → translate_symbol tbl target = [] →
      (dlookup t rates).isSome →
      get_target_currencies rates tbl (some s) target = .ok [t]) ∧
    (translate_symbol tbl target = [] →
      (∀ t, target = some t → dlookup t rates = none) →
      get_target_currencies rates tbl (some s) target = .ok (rates.map Prod.fst)) := by
  have h1 : ¬(truthy (some s) = true ∧ ((some s : Option String).getD "").length ≠ 3) :=
    fun h => h.2 hlen
  have h2 : ¬((match (some s : Option String) with
      | none => true
      | some s => (dlookup s rates).isNone) = true) := by
    simp [hknown]
  refine ⟨fun hne => ?_, fun t ht hemp hin => ?_, fun hemp hnone => ?_⟩ <;>
    simp only [get_target_currencies, if_neg h1, if_neg h2]
  · simp [hne]
  · subst ht
    simp [hemp, hin]
  · cases target with
    | none => simp [hemp]
    | some t => simp [hemp, hnone t rfl]

/-- Witness for the C4 theorem: with the test rate table, source `"USD"`
and target `"CZK"` resolve to the singleton `["CZK"]`. -/
theorem target_resolution_precedence_witness :
    get_target_currencies exampleRates [] (some "USD") (some "CZK") = .ok ["CZK"] :=
  (target_resolution_precedence exampleRates [] "USD" (3 / 2) (some "CZK")
    (by decide) rfl).2.1 "CZK" rfl rfl rfl

/-- C7: target resolution rejects every invalid source with `ValueError`
and produces no target list: a `None` source and a source absent from the
rate table take the membership rejection, and a non-empty source whose
length differs from 3 is rejected by the length check before membership is
consulted. -/
theorem invalid_source_rejected (rates : Rates) (tbl : SymbolTable)
    (target : Option String) :
    get_target_currencies rates tbl none target
      = .error (.valueError "Currency None invalid or not supported") ∧
    (∀ s, dlookup s rates = none → (s = "" ∨ s.length = 3) →
      get_target_currencies rates tbl (some s) target
        = .error (.valueError ("Currency " ++ s ++ " invalid or not supported"))) ∧
    (∀ s, s ≠ "" → s.length ≠ 3 →
      get_target_currencies rates tbl (some s) target
        = .error (.valueError "Currency symbol as input parameter not supported")) := by
  refine ⟨?_, fun s hs hok => ?_, fun s hne hlen => ?_⟩
  · unfold get_target_currencies
    rw [if_neg (show ¬(truthy (none : Option String) = true ∧
        ((none : Option String).getD "").length ≠ 3) by simp [truthy])]
    rfl
  · have h1 : ¬(truthy (some s) = true ∧ ((some s : Option String).getD "").length ≠ 3) := by
      rcases hok with rfl | h3
      · intro h
        exact absurd h.1 (by decide)
      · exact fun h => h.2 h3
    unfold get_target_currencies
    rw [if_neg h1, if_pos (by simp [hs])]
    rfl
  · have hie : s.isEmpty = false := by
      rw [← Bool.not_eq_true, String.isEmpty_iff]
      exact hne
    have h1 : truthy (some s) = true ∧ ((some s : Option String).getD "").length ≠ 3 :=
      ⟨by simp [truthy, hie], by simpa using hlen⟩
    unfold get_target_currencies
    rw [if_pos h1]

/-- Witness for the C7 theorem: the unknown 3-letter source `"XXX"` is
rejected with the membership `ValueError`. -/
theorem invalid_source_rejected_witness :
    get_target_currencies exampleRates [] (some "XXX") (some "CZK")
      = .error (.valueError ("Currency " ++ "XXX" ++ " invalid or not supported")) :=
  (invalid_source_rejected exampleRates [] (some "CZK")).2.1 "XXX" rfl
    (Or.inr (by decide))

/-- C10: in symbol resolution, the reported fatal-abort path is taken
exactly on an open/read failure of the table file; an uncaught exception
(with no report and no empty-list fallback) escapes exactly on a table file
that opens but holds malformed JSON; and with a loaded table whose entries
all carry non-empty code lists, the empty list is produced exactly when the
symbol key is missing from the table. -/
theorem symbol_resolution_error_paths (fileRead : FileReadResult)
    (currency : Option String) :
    (translate_symbol_full fileRead currency = .fatalAbort ↔
      fileRead = .ioError) ∧
    ((∃ e, translate_symbol_full fileRead currency = .uncaughtError e) ↔
      fileRead = .malformedJson) ∧
    (∀ tbl, fileRead = .content tbl → (∀ p ∈ tbl, p.2 ≠ []) →
      (translate_symbol_full fileRead currency = .resolved [] ↔
        ∀ s, currency = some s → dlookup s tbl = none)) := by
  refine ⟨?_, ?_, ?_⟩
  · cases fileRead <;> simp [translate_symbol_full]
  · cases fileRead <;> simp [translate_symbol_full]
  · rintro tbl rfl hvalid
    simp only [translate_symbol_full, SymbolOutcome.resolved.injEq]
    cases currency with
    | none => simp [translate_symbol]
    | some s =>
      simp only [translate_symbol]
      cases hl : dlookup s tbl with
      | none => simp [hl]
      | some codes =>
        have hcne : codes ≠ [] := hvalid (s, codes) (dlookup_mem hl)
        simp [hcne, hl]

/-- Witness for the C10 theorem: with a well-formed one-entry table, the
unknown symbol `"?"` resolves to the empty list. -/
theorem symbol_resolution_error_paths_witness :
    translate_symbol_full (.content [("$", ["USD", "CAD"])]) (some "?")
      = .resolved [] := by
  refine ((symbol_resolution_error_paths (.content [("$", ["USD", "CAD"])])
    (some "?")).2.2 _ rfl ?_).mpr ?_
  · intro p hp
    simp only [List.mem_singleton] at hp
    subst hp
    simp
  · intro s hs
    obtain rfl : s = "?" := by injection hs with h; exact h.symm
    rfl

/-- C3: for every non-negative amount, a source present in the rate table
(with the positive rate the data model guarantees for every snapshot rate),
and any target list, conversion succeeds and its output maps exactly the
targets present in the rate table to
`round(amount / rate[source] * rate[target], 2)`, with no entry for
absent targets; and concretely, with rates USD 1.5 / CZK 25 / CAD 1.3,
converting 300.0 USD to CZK and CAD yields 5000.0 and 260.0. -/
theorem convert_output_spec :
    (∀ (rates : Rates) (amount : ℚ) (orig : String) (targets : List String)
        (origRate : ℚ),
      0 ≤ amount → dlookup orig rates = some origRate → 0 < origRate →
      ∃ res, convert_currency rates amount orig targets = .ok res ∧
        res.amount = amount ∧ res.currency = orig ∧
        (∀ c r, c ∈ targets → dlookup c rates = some r →
          dlookup c res.output = some (pyRound2 (amount / origRate * r))) ∧
        (∀ c, c ∉ targets ∨ dlookup c rates = none → dlookup c res.output = none)) ∧
    convert_currency exampleRates 300 "USD" ["CZK", "CAD"]
      = .ok { amount := 300, currency := "USD",
              output := [("CZK", 5000), ("CAD", 260)] } := by
  constructor
  · intro rates amount orig targets origRate hamt horig hpos
    have h0 : origRate ≠ 0 := ne_of_gt hpos
    obtain ⟨o, ho⟩ := convertLoop_ok_of_ne rates amount origRate h0 targets []
    refine ⟨{ amount := amount, currency := orig, output := o }, ?_, rfl, rfl, ?_, ?_⟩
    · unfold convert_currency
      rw [if_neg (not_lt.mpr hamt), horig]
      simp [ho]
    · intro c r hc hr
      exact convertLoop_lookup_mem rates amount origRate h0 targets [] c r o hc hr ho
    · intro c hc
      rw [convertLoop_lookup_skip rates amount origRate targets [] c o hc ho]
      rfl
  · have e1 : pyRound2 ((300 : ℚ) / (3 / 2) * 25) = 5000 := by
      norm_num [pyRound2, roundHalfEven]
    have e2 : pyRound2 ((300 : ℚ) / (3 / 2) * (13 / 10)) = 260 := by
      norm_num [pyRound2, roundHalfEven]
    have hne1 : "USD" ≠ "CZK" := by decide
    have hne2 : "USD" ≠ "CAD" := by decide
    have hne3 : "CZK" ≠ "CAD" := by decide
    have hn1 : ¬(300 : ℚ) < 0 := by norm_num
    have hz : ((3 : ℚ) / 2) ≠ 0 := by norm_num
    simp [convert_currency, convertLoop, exampleRates, dlookup, dictInsert,
      hne1, hne2, hne3, hn1, hz, e1, e2]

/-- Witness for the C3 theorem: converting 300.0 USD to CZK with the test
rate table succeeds with output entry CZK 5000.0. -/
theorem convert_output_spec_witness :
    ∃ res, convert_currency exampleRates 300 "USD" ["CZK"] = .ok res ∧
      dlookup "CZK" res.output = some 5000 := by
  obtain ⟨res, hres, -, -, hmem, -⟩ :=
    convert_output_spec.1 exampleRates 300 "USD" ["CZK"] (3 / 2)
      (by norm_num) rfl (by norm_num)
  refine ⟨res, hres, ?_⟩
  rw [hmem "CZK" 25 (by simp) rfl]
  norm_num [pyRound2, roundHalfEven]

/-- C9 counterexample: with rate table `{USD: 0.0}`, amount 1.0 and an
empty target list, the conversion completes without any error although the
source rate is zero — no division is ever executed when no target is
present in the table — contradicting the claim that completion requires a
nonzero source rate. -/
theorem convert_zero_rate_counterexample :
    dlookup "USD" [("USD", (0 : ℚ))] = some 0 ∧
    convert_currency [("USD", (0 : ℚ))] 1 "USD" []
      = .ok { amount := 1, currency := "USD", output := [] } := by
  constructor
  · rfl
  · unfold convert_currency
    rw [if_neg (by norm_num : ¬(1 : ℚ) < 0)]
    rfl

/-- C9 amended: for every valid (non-negative) amount, `convert_currency`
completes without an uncaught error exactly when the source currency is
present in the rate table and either its rate is nonzero or no target in
the list is present in the table (the unguarded division runs once per
present target); when the source is absent, the failure escapes as a
`KeyError` — an unhandled lookup error, not the `ValueError` rejection used
for bad amounts. -/
theorem convert_completion_iff (rates : Rates) (amount : ℚ) (orig : String)
    (targets : List String) (hamt : 0 ≤ amount) :
    ((∃ res, convert_currency rates amount orig targets = .ok res) ↔
      ∃ r, dlookup orig rates = some r ∧
        (r ≠ 0 ∨ ∀ c ∈ targets, dlookup c rates = none)) ∧
    (dlookup orig rates = none →
      convert_currency rates amount orig targets = .error (.keyError orig)) := by
  unfold convert_currency
  rw [if_neg (not_lt.mpr hamt)]
  cases horig : dlookup orig rates with
  | none =>
    refine ⟨by simp, fun _ => rfl⟩
  | some r =>
    dsimp only
    refine ⟨?_, fun h => Option.noConfusion h⟩
    by_cases hr : r = 0
    · subst hr
      cases hl : convertLoop rates amount 0 targets [] with
      | error e =>
        constructor
        · rintro ⟨res, hres⟩
          exact Except.noConfusion hres
        · rintro ⟨r', hr', hcase⟩
          obtain rfl : (0 : ℚ) = r' := by injection hr'
          rcases hcase with h | h
          · exact absurd rfl h
          · obtain ⟨o, ho⟩ := (convertLoop_zero_ok_iff rates amount targets []).mpr h
            exact Except.noConfusion (ho.symm.trans hl)
      | ok out =>
        have hall := (convertLoop_zero_ok_iff rates amount targets []).mp ⟨out, hl⟩
        exact iff_of_true
          ⟨{ amount := amount, currency := orig, output := out }, by simp [hl]⟩
          ⟨0, rfl, Or.inr hall⟩
    · obtain ⟨o, ho⟩ := convertLoop_ok_of_ne rates amount r hr targets []
      exact iff_of_true
        ⟨{ amount := amount, currency := orig, output := o }, by simp [ho]⟩
        ⟨r, rfl, Or.inl hr⟩

/-- Witness for the amended C9 theorem: converting 1.0 USD to CZK with the
test rate table completes. -/
theorem convert_completion_iff_witness :
    ∃ res, convert_currency exampleRates 1 "USD" ["CZK"] = .ok res :=
  (convert_completion_iff exampleRates 1 "USD" ["CZK"] (by norm_num)).1.mpr
    ⟨3 / 2, rfl, Or.inl (by norm_num)⟩
